import Mathlib

/-!
Shallow embedding of the Job Application Container (src/app.py), a
Streamlit job-application tracker backed by an external record store and
blob store, together with theorems checking its specification.

Modelling conventions:
- An application row is a structure mirroring the columns of the
  job_applications table; timestamps are a calendar structure.
- The external record store is explicit state (a list of rows) passed
  through the repository functions; store/blob failures and outcomes are
  explicit parameters or Except values.
- pandas operations are modelled elementwise: value_counts counts the
  distinct values (first-occurrence order), and groupby produces groups
  keyed by the sorted distinct keys — the keys are distinct, so their
  sorted arrangement is unique whatever sort algorithm is used.
- sort_values uses pandas' default quicksort, which is documented as not
  stable, so the program guarantees only a key-sorted permutation of its
  input: the relative order of tied keys is unspecified. Theorems about
  sorted outputs therefore quantify over every key-sorted permutation.
  The concrete sorted instances below (role_ranking, value_counts_desc,
  top_co) use List.insertionSort; numpy's introsort runs insertion sort
  below its small-array threshold, so on the few-element inputs of the
  concrete theorems these instances coincide with the program.
- Rates are rational numbers; Python float division a / t * 100 is
  modelled as exact division in Rat.
-/

/-- The status enum of src/app.py line 204 (STATUS_OPTIONS). -/
def STATUS_OPTIONS : List String := ["Applied", "Accepted", "Withdrawn", "Rejected"]

/-- A calendar timestamp (Python datetime, to second resolution). -/
structure DateTime where
  year : Nat
  month : Nat
  day : Nat
  hour : Nat
  minute : Nat
  second : Nat
deriving DecidableEq, Repr

/-- Field ranges of a Python datetime value. -/
abbrev DateTime.valid (t : DateTime) : Prop :=
  t.year < 10000 ∧ 1 ≤ t.month ∧ t.month ≤ 12 ∧ 1 ≤ t.day ∧ t.day ≤ 31 ∧
    t.hour < 24 ∧ t.minute < 60 ∧ t.second < 60

/-- One row of the job_applications table. -/
structure Application where
  id : Nat
  company_name : String
  role : String
  status : String
  resume_url : Option String
  applied_date : DateTime
deriving DecidableEq, Repr

/-! ## Repository operations (src/app.py lines 216-309, 541-558) -/

/-- fetch_all_applications (src/app.py lines 263-270): the select either
returns the rows (ordered by the store) or raises; on an exception the
function reports an error message and returns the empty list. -/
def fetch_all_applications (response : Except String (List Application)) :
    List Application :=
  match response with
  | Except.ok rows => rows
  | Except.error _ => []

/-- insert_job_application (src/app.py lines 234-247): rejects a status
outside STATUS_OPTIONS before contacting the store; otherwise inserts the
row. Returns the success flag and the resulting store contents. -/
def insert_job_application (company role status : String)
    (resume_url : Option String) (now : DateTime) (newId : Nat)
    (store : List Application) : Bool × List Application :=
  if status ∈ STATUS_OPTIONS then
    (true, store ++ [{ id := newId, company_name := company, role := role,
                       status := status, resume_url := resume_url,
                       applied_date := now }])
  else
    (false, store)

/-- The add-job form submit handler (src/app.py lines 541-558): an empty
company or role is rejected with an error before any store call;
otherwise insert_job_application is invoked. -/
def add_job_form (company role status : String) (resume_url : Option String)
    (now : DateTime) (newId : Nat) (store : List Application) :
    Bool × List Application :=
  if company = "" ∨ role = "" then
    (false, store)
  else
    insert_job_application company role status resume_url now newId store

/-- update_application_status (src/app.py lines 272-281): rejects a status
outside STATUS_OPTIONS before the update call; otherwise patches the row
with the matching id. -/
def update_application_status (app_id : Nat) (new_status : String)
    (store : List Application) : Bool × List Application :=
  if new_status ∈ STATUS_OPTIONS then
    (true, store.map (fun a =>
      if a.id = app_id then { a with status := new_status } else a))
  else
    (false, store)

/-- Value of a hexadecimal digit character, as in urllib's percent
decoding. -/
def hexDigitVal (c : Char) : Option Nat :=
  if '0' ≤ c ∧ c ≤ '9' then some (c.toNat - 48)
  else if 'A' ≤ c ∧ c ≤ 'F' then some (c.toNat - 55)
  else if 'a' ≤ c ∧ c ≤ 'f' then some (c.toNat - 87)
  else none

/-- Percent-decoding of a character list (urllib.parse.unquote, modelled
at the byte level for single-byte code points). -/
def unquoteChars : List Char → List Char
  | [] => []
  | '%' :: a :: b :: rest =>
    match hexDigitVal a, hexDigitVal b with
    | some x, some y => Char.ofNat (16 * x + y) :: unquoteChars rest
    | _, _ => '%' :: unquoteChars (a :: b :: rest)
  | c :: rest => c :: unquoteChars rest

/-- urllib.parse.unquote on a string. -/
def unquote (s : String) : String := ⟨unquoteChars s.data⟩

/-- Whether the first list is an initial segment of the second. -/
def startsWith : List Char → List Char → Bool
  | [], _ => true
  | _ :: _, [] => false
  | a :: as, b :: bs => a = b && startsWith as bs

/-- The suffix after the last occurrence of sep, or none when sep does
not occur: url.split(sep)[-1] guarded by the Python `in` test. -/
def afterLast (sep : List Char) : List Char → Option (List Char)
  | [] => none
  | c :: rest =>
    match afterLast sep rest with
    | some r => some r
    | none =>
      if startsWith sep (c :: rest) then some ((c :: rest).drop sep.length)
      else none

/-- The storage-key extraction inside delete_application (src/app.py line
299): file_path is the percent-decoded last segment after "/resumes/"
when that marker occurs in the URL, and None otherwise. -/
def delete_resume_path (resume_url : String) : Option String :=
  match afterLast "/resumes/".data resume_url.data with
  | some suffix => some (unquote ⟨suffix⟩)
  | none => none

/-- An observable call to the external stores. -/
inductive StoreEvent where
  | blobRemove (path : String) (ok : Bool)
  | recordDelete (app_id : Nat)
deriving DecidableEq, Repr

/-- delete_application (src/app.py lines 295-309): when the row has a
resume URL containing the "/resumes/" marker, the blob removal is
attempted first (its success or failure recorded by blobOk and only
warned about), then the row is deleted. Returns the event trace, the
success flag and the resulting store contents. -/
def delete_application (app_id : Nat) (resume_url : Option String)
    (blobOk : String → Bool) (store : List Application) :
    List StoreEvent × Bool × List Application :=
  let blobEvents :=
    match resume_url with
    | none => []
    | some url =>
      match delete_resume_path url with
      | none => []
      | some p => [StoreEvent.blobRemove p (blobOk p)]
  (blobEvents ++ [StoreEvent.recordDelete app_id], true,
    store.filter (fun a => a.id ≠ app_id))

/-- Decimal digit character of n mod 10. -/
def digitChar (n : Nat) : Char := Char.ofNat (48 + n % 10)

/-- Zero-padded two-digit rendering (strftime %m, %d, %H, %M, %S). -/
def pad2 (n : Nat) : String := ⟨[digitChar (n / 10), digitChar n]⟩

/-- Zero-padded four-digit rendering (strftime %Y). -/
def pad4 (n : Nat) : String :=
  ⟨[digitChar (n / 1000), digitChar (n / 100), digitChar (n / 10), digitChar n]⟩

/-- datetime.now().strftime of the pattern used at src/app.py line 219:
year-month-day, an underscore, then hour-minute-second. -/
def strftime_timestamp (t : DateTime) : String :=
  pad4 t.year ++ pad2 t.month ++ pad2 t.day ++ "_" ++
    pad2 t.hour ++ pad2 t.minute ++ pad2 t.second

/-- Base of the public URL the blob store hands back for a key in the
resumes bucket (external collaborator). -/
def resumesUrlBase : String := "/storage/v1/object/public/resumes/"

/-- company_name.replace of a space by an underscore (src/app.py line
221). -/
def spaceToUnderscore (s : String) : String :=
  ⟨s.data.map (fun c => if c = ' ' then '_' else c)⟩

/-- upload_resume_to_storage (src/app.py lines 216-229): the storage key
is the company name with spaces replaced by underscores, the current
timestamp and the original file name, joined by underscores; the return
value is the public URL of the key together with the key. -/
def upload_resume_to_storage (file_name company_name : String)
    (now : DateTime) : String × String :=
  let timestamp := strftime_timestamp now
  let file_path :=
    (spaceToUnderscore company_name) ++ "_" ++ timestamp ++ "_" ++ file_name
  (resumesUrlBase ++ file_path, file_path)

/-! ## Generic list machinery for the pandas aggregations -/

/-- The distinct elements of a list in first-occurrence order: the key
order of a Python dict built by accumulation, and of the unique values
underlying value_counts before sorting. -/
def firstOccurrences {α : Type} [DecidableEq α] (xs : List α) : List α :=
  xs.foldl (fun acc x => if x ∈ acc then acc else acc ++ [x]) []

theorem foldlDistinct_mem {α : Type} [DecidableEq α] (xs : List α)
    (acc : List α) (y : α) :
    (y ∈ xs.foldl (fun acc x => if x ∈ acc then acc else acc ++ [x]) acc) ↔
      y ∈ acc ∨ y ∈ xs := by
  induction xs generalizing acc with
  | nil => simp
  | cons x xs ih =>
    simp only [List.foldl_cons]
    by_cases h : x ∈ acc
    · rw [if_pos h, ih]
      constructor
      · rintro (h1 | h1)
        · exact Or.inl h1
        · exact Or.inr (List.mem_cons_of_mem _ h1)
      · rintro (h1 | h1)
        · exact Or.inl h1
        · rcases List.mem_cons.mp h1 with h2 | h2
          · exact Or.inl (h2 ▸ h)
          · exact Or.inr h2
    · rw [if_neg h, ih]
      simp only [List.mem_append, List.mem_singleton, List.mem_cons]
      tauto

theorem foldlDistinct_nodup {α : Type} [DecidableEq α] (xs : List α)
    (acc : List α) (h : acc.Nodup) :
    (xs.foldl (fun acc x => if x ∈ acc then acc else acc ++ [x]) acc).Nodup := by
  induction xs generalizing acc with
  | nil => simpa
  | cons x xs ih =>
    simp only [List.foldl_cons]
    by_cases hx : x ∈ acc
    · rw [if_pos hx]; exact ih _ h
    · rw [if_neg hx]
      exact ih _ (by simp [List.nodup_append, h, hx])

theorem mem_firstOccurrences {α : Type} [DecidableEq α] (xs : List α)
    (y : α) : y ∈ firstOccurrences xs ↔ y ∈ xs := by
  rw [firstOccurrences, foldlDistinct_mem]
  simp

theorem nodup_firstOccurrences {α : Type} [DecidableEq α] (xs : List α) :
    (firstOccurrences xs).Nodup :=
  foldlDistinct_nodup xs [] List.nodup_nil

/-- Inserting x into a list sorted by the refined order, where x relates
by T to every element of the list, keeps the refined order. -/
theorem orderedInsert_pairwise_stable {α : Type} (le : α → α → Prop)
    [DecidableRel le] (T : α → α → Prop)
    (htot : ∀ a b, le a b ∨ le b a)
    (htr : ∀ a b c, le a b → le b c → le a c)
    (x : α) (l : List α)
    (hl : l.Pairwise (fun a b => (le a b ∧ ¬ le b a) ∨ (le a b ∧ le b a ∧ T a b)))
    (hx : ∀ y ∈ l, le x y → le y x → T x y) :
    (l.orderedInsert le x).Pairwise
      (fun a b => (le a b ∧ ¬ le b a) ∨ (le a b ∧ le b a ∧ T a b)) := by
  induction l with
  | nil => simp [List.orderedInsert]
  | cons y ys ih =>
    simp only [List.orderedInsert]
    by_cases hxy : le x y
    · rw [if_pos hxy]
      refine List.Pairwise.cons ?_ hl
      intro z hz
      rcases List.mem_cons.mp hz with h2 | h2
      · subst h2
        by_cases hyx : le z x
        · exact Or.inr ⟨hxy, hyx, hx z (List.mem_cons_self _ _) hxy hyx⟩
        · exact Or.inl ⟨hxy, hyx⟩
      · have hyz := List.rel_of_pairwise_cons hl h2
        have hlyz : le y z := by
          rcases hyz with h3 | h3
          · exact h3.1
          · exact h3.1
        have hxz : le x z := htr x y z hxy hlyz
        by_cases hzx : le z x
        · exact Or.inr ⟨hxz, hzx, hx z (List.mem_cons_of_mem _ h2) hxz hzx⟩
        · exact Or.inl ⟨hxz, hzx⟩
    · rw [if_neg hxy]
      have hyx : le y x := (htot x y).resolve_left hxy
      refine List.Pairwise.cons ?_ ?_
      · intro w hw
        rcases (List.mem_orderedInsert le).mp hw with h2 | h2
        · subst h2
          exact Or.inl ⟨hyx, hxy⟩
        · exact List.rel_of_pairwise_cons hl h2
      · exact ih hl.of_cons (fun z hz => hx z (List.mem_cons_of_mem _ hz))

/-- insertionSort refines the order: when the input is pairwise
consistent with T on le-ties, the sorted output is ordered by le refined
with T on ties. It is used below only on lists of distinct keys, where
ties are impossible (T vacuous) and the sorted result is strict. -/
theorem insertionSort_pairwise_stable {α : Type} (le : α → α → Prop)
    [DecidableRel le] (T : α → α → Prop)
    (htot : ∀ a b, le a b ∨ le b a)
    (htr : ∀ a b c, le a b → le b c → le a c)
    (l : List α)
    (hl : l.Pairwise (fun a b => le a b → le b a → T a b)) :
    (l.insertionSort le).Pairwise
      (fun a b => (le a b ∧ ¬ le b a) ∨ (le a b ∧ le b a ∧ T a b)) := by
  induction l with
  | nil => simp [List.insertionSort]
  | cons x xs ih =>
    simp only [List.insertionSort]
    refine orderedInsert_pairwise_stable le T htot htr x _ (ih hl.of_cons) ?_
    intro y hy hxy hyx
    have hmem : y ∈ xs := (List.mem_insertionSort le).mp hy
    exact List.rel_of_pairwise_cons hl hmem hxy hyx

/-! ## Dashboard aggregations (src/app.py lines 380-526, 593-603) -/

/-- Lexicographic comparison of char lists by code point: the string
order Python and pandas use when sorting group keys. -/
def listCharLe : List Char → List Char → Bool
  | [], _ => true
  | _ :: _, [] => false
  | a :: as, b :: bs =>
    if a < b then true else if b < a then false else listCharLe as bs

/-- The Python string order, on the underlying characters. -/
def pdStrLe (a b : String) : Bool := listCharLe a.data b.data

/-- One step of the tracker-tab tally loop (src/app.py line 597): the
Python dict update status_counts[s] = status_counts.get(s, 0) + 1,
preserving insertion order. -/
def dict_incr : List (String × Nat) → String → List (String × Nat)
  | [], k => [(k, 1)]
  | (q, v) :: rest, k =>
    if q = k then (q, v + 1) :: rest else (q, v) :: dict_incr rest k

/-- The status tally of the tracker tab (src/app.py lines 594-597),
built over all fetched applications. -/
def status_counts (apps : List Application) : List (String × Nat) :=
  apps.foldl (fun d a => dict_incr d a.status) []

/-- Python dict .get with a default value. -/
def dict_get (d : List (String × Nat)) (k : String) (dflt : Nat) : Nat :=
  match d with
  | [] => dflt
  | (q, v) :: rest => if q = k then v else dict_get rest k dflt

/-- One bar of the per-role chart. -/
structure RoleStat where
  role : String
  total : Nat
  accepted : Nat
  rate : Rat
deriving DecidableEq, Repr

/-- df.groupby("role").apply of build_dashboard (src/app.py lines
439-445): one group per distinct role, keys in sorted order, each
carrying the group size, accepted count and rate. The keys are distinct,
so their sorted arrangement is the same for every sort algorithm. -/
def role_grp (apps : List Application) : List RoleStat :=
  ((firstOccurrences (apps.map (fun a => a.role))).insertionSort
      (fun a b => pdStrLe a b = true)).map (fun r =>
    let g := apps.filter (fun a => a.role = r)
    { role := r, total := g.length,
      accepted := (g.filter (fun a => a.status = "Accepted")).length,
      rate := ((g.filter (fun a => a.status = "Accepted")).length : Rat) /
        (g.length : Rat) * 100 })

/-- role_grp.sort_values("rate", ascending=True) (src/app.py line 449),
instantiated with insertionSort. sort_values guarantees only a
rate-sorted permutation of role_grp (its default quicksort is not
stable); this instance coincides with the program on small inputs, where
numpy falls back to insertion sort. The general claim theorem quantifies
over every rate-sorted permutation. -/
def role_ranking (apps : List Application) : List RoleStat :=
  (role_grp apps).insertionSort (fun x y => x.rate ≤ y.rate)

/-- The counted pairs underlying df["company_name"].value_counts()
(src/app.py line 481): each distinct value with its number of
occurrences, listed in first-occurrence order (the order is irrelevant
to the theorems, which only use it up to permutation). -/
def value_counts_pairs (xs : List String) : List (String × Nat) :=
  (firstOccurrences xs).map
    (fun v => (v, (xs.filter (fun y => y = v)).length))

/-- df["company_name"].value_counts() (src/app.py line 481): the counted
pairs sorted by descending count, instantiated with insertionSort; as
with role_ranking, the program guarantees only a count-sorted
permutation, with which this instance agrees on small inputs. -/
def value_counts_desc (xs : List String) : List (String × Nat) :=
  (value_counts_pairs xs).insertionSort (fun p q => q.2 ≤ p.2)

/-- The Top Companies block (src/app.py lines 480-486): value_counts,
head(10), then sort_values("count", ascending=True) for display, again
instantiated with insertionSort. -/
def top_co (apps : List Application) : List (String × Nat) :=
  ((value_counts_desc (apps.map (fun a => a.company_name))).take
      10).insertionSort (fun p q => p.2 ≤ q.2)

/-- The calendar month of a timestamp as a chronologically ordered key
(pandas to_period("M")). -/
def month_key (t : DateTime) : Nat := t.year * 100 + t.month

/-- strftime %b month abbreviation. -/
def month_abbrev : Nat → String
  | 1 => "Jan"
  | 2 => "Feb"
  | 3 => "Mar"
  | 4 => "Apr"
  | 5 => "May"
  | 6 => "Jun"
  | 7 => "Jul"
  | 8 => "Aug"
  | 9 => "Sep"
  | 10 => "Oct"
  | 11 => "Nov"
  | 12 => "Dec"
  | _ => ""

/-- strftime "%b %Y" month label of a month key. -/
def month_label (k : Nat) : String :=
  month_abbrev (k % 100) ++ " " ++ toString (k / 100)

/-- One point of the monthly acceptance series. -/
structure MonthStat where
  month : Nat
  total : Nat
  accepted : Nat
  rate : Rat
  month_str : String
deriving DecidableEq, Repr

/-- The monthly acceptance series of build_dashboard (src/app.py lines
380-389): group by calendar month of applied_date (keys sorted, hence
chronologically ascending), with total, accepted, rate and the strftime
label. -/
def monthly_grp (apps : List Application) : List MonthStat :=
  ((firstOccurrences (apps.map
      (fun a => month_key a.applied_date))).insertionSort
      (fun a b => a ≤ b)).map (fun m =>
    let g := apps.filter (fun a => month_key a.applied_date = m)
    { month := m, total := g.length,
      accepted := (g.filter (fun a => a.status = "Accepted")).length,
      rate := ((g.filter (fun a => a.status = "Accepted")).length : Rat) /
        (g.length : Rat) * 100,
      month_str := month_label m })

/-! ## Theorems for claims C5, C6, C7, C10 -/

/-- The count of rows with a given status, len(df[df["status"] == s]). -/
def countStatus (apps : List Application) (s : String) : Nat :=
  (apps.filter (fun a => a.status = s)).length

/-- The acceptance-rate metric of build_dashboard (src/app.py lines
351-354): accepted / total * 100 when total is nonzero, else 0. -/
def acceptance_rate (apps : List Application) : Rat :=
  if apps.length ≠ 0 then
    (countStatus apps "Accepted" : Rat) / (apps.length : Rat) * 100
  else 0

/-- C5: for every filtered collection the acceptance rate equals
accepted / total * 100, and on the empty collection it is exactly 0,
with no division-by-zero or undefined value. -/
theorem acceptance_rate_spec (apps : List Application) :
    (apps.length ≠ 0 →
      acceptance_rate apps =
        (countStatus apps "Accepted" : Rat) / (apps.length : Rat) * 100) ∧
    acceptance_rate [] = 0 := by
  constructor
  · intro h
    simp [acceptance_rate, h]
  · simp [acceptance_rate]

/-- Witness for acceptance_rate_spec at a concrete two-row collection. -/
theorem acceptance_rate_spec_witness :
    acceptance_rate
      [{ id := 1, company_name := "A", role := "X", status := "Accepted",
         resume_url := none,
         applied_date := ⟨2024, 1, 5, 0, 0, 0⟩ },
       { id := 2, company_name := "B", role := "X", status := "Applied",
         resume_url := none,
         applied_date := ⟨2024, 1, 6, 0, 0, 0⟩ }] =
      (countStatus
        [{ id := 1, company_name := "A", role := "X", status := "Accepted",
           resume_url := none,
           applied_date := ⟨2024, 1, 5, 0, 0, 0⟩ },
         { id := 2, company_name := "B", role := "X", status := "Applied",
           resume_url := none,
           applied_date := ⟨2024, 1, 6, 0, 0, 0⟩ }] "Accepted" : Rat) / 2 * 100 :=
  (acceptance_rate_spec _).1 (by decide)

/-- C10: when the record store fails during the list operation, the code
returns the empty list, so at the return value an outage is
indistinguishable from an empty table. -/
theorem fetch_failure_empty_spec (msg : String) :
    fetch_all_applications (Except.error msg) = [] ∧
    fetch_all_applications (Except.error msg) =
      fetch_all_applications (Except.ok []) := by
  constructor <;> rfl

/-- C6: an empty company, an empty role, or a status outside the enum
makes the create operation fail with a validation error and leaves the
store untouched (no row inserted). -/
theorem insert_validation_spec (company role status : String)
    (resume_url : Option String) (now : DateTime) (newId : Nat)
    (store : List Application)
    (h : company = "" ∨ role = "" ∨ status ∉ STATUS_OPTIONS) :
    add_job_form company role status resume_url now newId store =
      (false, store) := by
  rcases h with h | h | h
  · simp [add_job_form, h]
  · simp [add_job_form, h]
  · by_cases hcr : company = "" ∨ role = ""
    · simp [add_job_form, hcr]
    · simp [add_job_form, hcr, insert_job_application, h]

/-- Witness for insert_validation_spec: an invalid status on an otherwise
complete form leaves the store unchanged. -/
theorem insert_validation_spec_witness :
    add_job_form "Acme" "Dev" "Pending" none ⟨2024, 1, 5, 0, 0, 0⟩ 7 [] =
      (false, []) :=
  insert_validation_spec "Acme" "Dev" "Pending" none ⟨2024, 1, 5, 0, 0, 0⟩ 7 []
    (Or.inr (Or.inr (by decide)))

/-- C7: a status outside the enum makes updateStatus fail with a
validation error before any mutation, leaving every stored row
unchanged. -/
theorem update_status_validation_spec (app_id : Nat) (new_status : String)
    (store : List Application) (h : new_status ∉ STATUS_OPTIONS) :
    update_application_status app_id new_status store = (false, store) := by
  simp [update_application_status, h]

/-- Witness for update_status_validation_spec at a concrete store. -/
theorem update_status_validation_spec_witness :
    update_application_status 1 "Ghosted"
      [{ id := 1, company_name := "A", role := "X", status := "Applied",
         resume_url := none, applied_date := ⟨2024, 1, 5, 0, 0, 0⟩ }] =
      (false,
       [{ id := 1, company_name := "A", role := "X", status := "Applied",
          resume_url := none, applied_date := ⟨2024, 1, 5, 0, 0, 0⟩ }]) :=
  update_status_validation_spec 1 "Ghosted" _ (by decide)

/-- C8: for a row whose resume URL contains the "/resumes/" marker, the
delete operation attempts the blob removal first, and even when that
removal fails the record deletion still proceeds and succeeds. -/
theorem delete_blob_best_effort_spec (app_id : Nat) (url : String)
    (blobOk : String → Bool) (store : List Application) (p : String)
    (h : delete_resume_path url = some p) :
    delete_application app_id (some url) blobOk store =
      ([StoreEvent.blobRemove p (blobOk p), StoreEvent.recordDelete app_id],
       true, store.filter (fun a => a.id ≠ app_id)) := by
  simp [delete_application, h]

/-- Witness for delete_blob_best_effort_spec: a failing blob removal
still yields a successful record deletion, with the removal attempted
first. -/
theorem delete_blob_best_effort_spec_witness :
    delete_application 3 (some "https://x.co/object/public/resumes/Acme_cv.pdf")
      (fun _ => false)
      [{ id := 3, company_name := "Acme", role := "X", status := "Applied",
         resume_url := some "https://x.co/object/public/resumes/Acme_cv.pdf",
         applied_date := ⟨2024, 1, 5, 0, 0, 0⟩ }] =
      ([StoreEvent.blobRemove "Acme_cv.pdf" false, StoreEvent.recordDelete 3],
       true, []) := by
  have h := delete_blob_best_effort_spec 3
    "https://x.co/object/public/resumes/Acme_cv.pdf" (fun _ => false)
    [{ id := 3, company_name := "Acme", role := "X", status := "Applied",
       resume_url := some "https://x.co/object/public/resumes/Acme_cv.pdf",
       applied_date := ⟨2024, 1, 5, 0, 0, 0⟩ }]
    "Acme_cv.pdf" (by decide)
  rw [h]
  decide

/-! ## Claim C1: the status tally -/

/-- A row with the given id, company, role and status, applied on
2024-01-05 (a helper for concrete instances). -/
def mkApp (i : Nat) (c r s : String) : Application :=
  { id := i, company_name := c, role := r, status := s, resume_url := none,
    applied_date := ⟨2024, 1, 5, 0, 0, 0⟩ }

theorem dict_incr_keys (d : List (String × Nat)) (k : String) :
    (dict_incr d k).map Prod.fst =
      if k ∈ d.map Prod.fst then d.map Prod.fst
      else d.map Prod.fst ++ [k] := by
  induction d with
  | nil => simp [dict_incr]
  | cons p rest ih =>
    obtain ⟨q, v⟩ := p
    by_cases h : q = k
    · subst h
      simp [dict_incr]
    · simp only [dict_incr, if_neg h, List.map_cons]
      rw [ih]
      by_cases h2 : k ∈ rest.map Prod.fst
      · rw [if_pos h2,
          if_pos (List.mem_cons_of_mem q h2)]
      · rw [if_neg h2, if_neg ?_, List.cons_append]
        intro hmem
        rcases List.mem_cons.mp hmem with h3 | h3
        · exact h (h3.symm)
        · exact h2 h3

theorem dict_get_nil (s : String) (dflt : Nat) : dict_get [] s dflt = dflt :=
  rfl

theorem dict_get_cons (q : String) (v : Nat) (rest : List (String × Nat))
    (s : String) (dflt : Nat) :
    dict_get ((q, v) :: rest) s dflt =
      if q = s then v else dict_get rest s dflt :=
  rfl

theorem dict_incr_get (d : List (String × Nat)) (k s : String) :
    dict_get (dict_incr d k) s 0 =
      if s = k then dict_get d s 0 + 1 else dict_get d s 0 := by
  induction d with
  | nil =>
    simp only [dict_incr, dict_get_cons, dict_get_nil]
    by_cases h : s = k
    · rw [if_pos h.symm, if_pos h]
    · rw [if_neg (fun h2 => h h2.symm), if_neg h]
  | cons p rest ih =>
    obtain ⟨q, v⟩ := p
    simp only [dict_incr]
    by_cases hqk : q = k
    · subst hqk
      rw [if_pos rfl]
      simp only [dict_get_cons]
      by_cases hqs : q = s
      · rw [if_pos hqs, if_pos hqs.symm, if_pos hqs]
      · rw [if_neg hqs, if_neg (fun h2 : s = q => hqs h2.symm), if_neg hqs]
    · rw [if_neg hqk]
      simp only [dict_get_cons, ih]
      by_cases hqs : q = s
      · have hsk : ¬ s = k := fun h2 => hqk (hqs.trans h2)
        rw [if_pos hqs, if_neg hsk, if_pos hqs]
      · rw [if_neg hqs, if_neg hqs]

theorem status_counts_keys_aux (xs : List Application)
    (d : List (String × Nat)) :
    ((xs.foldl (fun d a => dict_incr d a.status) d).map Prod.fst) =
      xs.foldl (fun acc a =>
        if a.status ∈ acc then acc else acc ++ [a.status])
        (d.map Prod.fst) := by
  induction xs generalizing d with
  | nil => rfl
  | cons a xs ih =>
    simp only [List.foldl_cons]
    rw [ih, dict_incr_keys]

theorem status_counts_get_aux (xs : List Application)
    (d : List (String × Nat)) (s : String) :
    dict_get (xs.foldl (fun d a => dict_incr d a.status) d) s 0 =
      dict_get d s 0 + (xs.filter (fun a => a.status = s)).length := by
  induction xs generalizing d with
  | nil => simp
  | cons a xs ih =>
    simp only [List.foldl_cons, List.filter_cons]
    rw [ih, dict_incr_get]
    by_cases h : s = a.status
    · have h2 : a.status = s := h.symm
      rw [if_pos h, if_pos (by simp [h2])]
      simp only [List.length_cons]
      omega
    · have h2 : ¬ a.status = s := fun heq => h heq.symm
      rw [if_neg h, if_neg (by simp [h2])]

/-- C1 counterexample: on a collection holding a single Applied row, the
tally's key set is just the one status present, not the four-value enum,
and the zero-count status Withdrawn is absent rather than mapped to 0. -/
theorem status_counts_missing_keys_example :
    (status_counts [mkApp 1 "A" "X" "Applied"]).map Prod.fst = ["Applied"] ∧
    (status_counts [mkApp 1 "A" "X" "Applied"]).map Prod.fst ≠
      STATUS_OPTIONS ∧
    (∀ p ∈ status_counts [mkApp 1 "A" "X" "Applied"], p.1 ≠ "Withdrawn") := by
  decide

/-- C1 amended: the tally's keys are exactly the distinct statuses
present in the collection in first-encountered order (statuses with no
applications are absent rather than mapped to 0), and the caller's
default-0 lookup returns the count of every status, 0 for the absent
ones, so the displayed per-status metrics are still correct. -/
theorem status_counts_amended (apps : List Application) :
    (status_counts apps).map Prod.fst =
      firstOccurrences (apps.map (fun a => a.status)) ∧
    (∀ s, dict_get (status_counts apps) s 0 = countStatus apps s) := by
  constructor
  · rw [status_counts, status_counts_keys_aux, firstOccurrences,
      List.foldl_map]
    rfl
  · intro s
    rw [status_counts, status_counts_get_aux, countStatus]
    simp [dict_get]

/-! ## Claim C4: the monthly acceptance series -/

theorem sortedKeysNat_lt (l : List Nat) (h : l.Nodup) :
    (l.insertionSort (fun a b => a ≤ b)).Pairwise (fun a b => a < b) := by
  have h2 := insertionSort_pairwise_stable (fun a b : Nat => a ≤ b)
    (fun _ _ => False) (fun a b => Nat.le_total a b)
    (fun a b c hab hbc => Nat.le_trans hab hbc) l
    (h.imp (fun hne hab hba => hne (Nat.le_antisymm hab hba)))
  refine h2.imp (fun hr => ?_)
  rcases hr with ⟨ha, hb⟩ | ⟨_, _, hf⟩
  · exact Nat.lt_of_le_of_ne ha (fun he => hb (he ▸ Nat.le_refl _))
  · exact hf.elim

theorem monthly_grp_months (apps : List Application) :
    (monthly_grp apps).map (fun e => e.month) =
      (firstOccurrences (apps.map
        (fun a => month_key a.applied_date))).insertionSort
        (fun a b => a ≤ b) := by
  rw [monthly_grp, List.map_map]
  exact List.map_id _

/-- C4: the monthly series has exactly one entry per calendar month
present in the collection (no month is synthesized: every entry's month
has at least one record), entries carry total, accepted, the rate
accepted over total times 100 and the month label, and months appear in
strictly ascending chronological order. -/
theorem monthly_series_spec (apps : List Application) :
    ((monthly_grp apps).map (fun e => e.month)).Pairwise (fun a b => a < b) ∧
    (∀ m, (m ∈ (monthly_grp apps).map (fun e => e.month)) ↔
      m ∈ apps.map (fun a => month_key a.applied_date)) ∧
    (∀ e ∈ monthly_grp apps,
      0 < e.total ∧
      e.total =
        (apps.filter (fun a => month_key a.applied_date = e.month)).length ∧
      e.accepted =
        ((apps.filter (fun a => month_key a.applied_date = e.month)).filter
          (fun a => a.status = "Accepted")).length ∧
      e.rate = (e.accepted : Rat) / (e.total : Rat) * 100 ∧
      e.month_str = month_label e.month) := by
  refine ⟨?_, ?_, ?_⟩
  · rw [monthly_grp_months]
    exact sortedKeysNat_lt _ (nodup_firstOccurrences _)
  · intro m
    rw [monthly_grp_months]
    exact (List.perm_insertionSort _ _).mem_iff.trans
      (mem_firstOccurrences _ m)
  · intro e he
    rw [monthly_grp] at he
    obtain ⟨m, hm, rfl⟩ := List.mem_map.mp he
    refine ⟨?_, rfl, rfl, rfl, rfl⟩
    have hm2 : m ∈ apps.map (fun a => month_key a.applied_date) :=
      (mem_firstOccurrences _ m).mp
        ((List.perm_insertionSort _ _).mem_iff.mp hm)
    obtain ⟨a, ha, ha2⟩ := List.mem_map.mp hm2
    exact List.length_pos_of_mem
      (List.mem_filter.mpr ⟨ha, by simp [ha2]⟩)

/-- Witness for monthly_series_spec at a one-row collection: its single
month entry has a positive total and the strftime label of its month. -/
theorem monthly_series_spec_witness :
    0 < ({ month := 202401, total := 1, accepted := 1,
           rate := ((1 : Nat) : Rat) / ((1 : Nat) : Rat) * 100,
           month_str := "Jan 2024" } : MonthStat).total ∧
    ({ month := 202401, total := 1, accepted := 1,
       rate := ((1 : Nat) : Rat) / ((1 : Nat) : Rat) * 100,
       month_str := "Jan 2024" } : MonthStat).month_str =
      month_label 202401 := by
  have h := (monthly_series_spec [mkApp 1 "A" "X" "Accepted"]).2.2
    ({ month := 202401, total := 1, accepted := 1,
       rate := ((1 : Nat) : Rat) / ((1 : Nat) : Rat) * 100,
       month_str := "Jan 2024" } : MonthStat) (List.Mem.head _)
  exact ⟨h.1, h.2.2.2.2⟩

/-! ## Claim C2: the per-role acceptance-rate ranking -/

theorem role_grp_roles (apps : List Application) :
    (role_grp apps).map (fun e => e.role) =
      (firstOccurrences (apps.map (fun a => a.role))).insertionSort
        (fun a b => pdStrLe a b = true) := by
  rw [role_grp, List.map_map]
  exact List.map_id _

/-- C2 counterexample: on two roles B then A, both with rate 0, the
ranking lists the roles as A, B — the order the alphabetically sorted
groupby keys already have — not in the first-encountered input order
B, A, so rate ties are not broken by input order. On a two-element
array numpy sorts with insertion sort, so here the insertionSort
instance is exactly the program's behavior. -/
theorem role_ranking_tie_order_example :
    ((role_ranking [mkApp 1 "c" "B" "Applied", mkApp 2 "c" "A" "Applied"]).map
        (fun e => e.role)) = ["A", "B"] ∧
    firstOccurrences
      ([mkApp 1 "c" "B" "Applied", mkApp 2 "c" "A" "Applied"].map
        (fun a => a.role)) = ["B", "A"] ∧
    (∀ e ∈ role_ranking [mkApp 1 "c" "B" "Applied", mkApp 2 "c" "A" "Applied"],
      e.rate = ((0 : Nat) : Rat) / ((1 : Nat) : Rat) * 100) ∧
    ((role_ranking [mkApp 1 "c" "B" "Applied", mkApp 2 "c" "A" "Applied"]).map
        (fun e => e.role)) ≠
      firstOccurrences
        ([mkApp 1 "c" "B" "Applied", mkApp 2 "c" "A" "Applied"].map
          (fun a => a.role)) := by
  have hkeys : (firstOccurrences
      ([mkApp 1 "c" "B" "Applied", mkApp 2 "c" "A" "Applied"].map
        (fun a => a.role))).insertionSort (fun a b => pdStrLe a b = true) =
      ["A", "B"] := by decide
  have hrank : role_ranking [mkApp 1 "c" "B" "Applied",
      mkApp 2 "c" "A" "Applied"] =
      role_grp [mkApp 1 "c" "B" "Applied", mkApp 2 "c" "A" "Applied"] := by
    rw [role_ranking, role_grp, hkeys]
    simp only [List.map_cons, List.map_nil, List.insertionSort,
      List.orderedInsert]
    exact if_pos (le_of_eq rfl)
  have hfo : firstOccurrences
      ([mkApp 1 "c" "B" "Applied", mkApp 2 "c" "A" "Applied"].map
        (fun a => a.role)) = ["B", "A"] := by decide
  refine ⟨?_, hfo, ?_, ?_⟩
  · rw [hrank, role_grp, hkeys]
    rfl
  · intro e he
    rw [hrank, role_grp, hkeys] at he
    simp only [List.map_cons, List.map_nil, List.mem_cons,
      List.not_mem_nil, or_false] at he
    rcases he with rfl | rfl
    · rfl
    · rfl
  · rw [hrank, role_grp, hkeys, hfo]
    intro he
    simp at he

/-- C2 amended: sort_values guarantees only a rate-sorted permutation
of the role groups (its default quicksort is not stable, so the order
among equal rates is unspecified and in particular not in general the
first-encountered input order). For every such output: it has exactly
one entry per distinct role of the input, each entry carries the group's
total, accepted count and the rate accepted over total times 100, and
entries are ordered non-decreasing by rate. -/
theorem role_ranking_amended (apps : List Application)
    (out : List RoleStat)
    (hperm : List.Perm out (role_grp apps))
    (hsort : out.Pairwise (fun x y => x.rate ≤ y.rate)) :
    ((out.map (fun e => e.role)).Nodup) ∧
    (∀ r, (r ∈ out.map (fun e => e.role)) ↔
      r ∈ apps.map (fun a => a.role)) ∧
    (∀ e ∈ out,
      e.total = (apps.filter (fun a => a.role = e.role)).length ∧
      e.accepted = ((apps.filter (fun a => a.role = e.role)).filter
        (fun a => a.status = "Accepted")).length ∧
      e.rate = (e.accepted : Rat) / (e.total : Rat) * 100) ∧
    out.Pairwise (fun x y => x.rate ≤ y.rate) := by
  have hmap : List.Perm (out.map (fun e => e.role))
      ((role_grp apps).map (fun e => e.role)) := hperm.map _
  have hkeysnodup : ((role_grp apps).map (fun e => e.role)).Nodup := by
    rw [role_grp_roles]
    exact ((List.perm_insertionSort _ _).nodup_iff).mpr
      (nodup_firstOccurrences _)
  refine ⟨?_, ?_, ?_, hsort⟩
  · exact (hmap.nodup_iff).mpr hkeysnodup
  · intro r
    refine (hmap.mem_iff).trans ?_
    rw [role_grp_roles]
    exact (List.perm_insertionSort _ _).mem_iff.trans
      (mem_firstOccurrences _ r)
  · intro e he
    have he2 : e ∈ role_grp apps := hperm.mem_iff.mp he
    rw [role_grp] at he2
    obtain ⟨r, hr, rfl⟩ := List.mem_map.mp he2
    exact ⟨rfl, rfl, rfl⟩

/-- Witness for role_ranking_amended at a one-role collection, with the
group list itself as the (trivially rate-sorted) output: the single
entry's total is the size of its role group. -/
theorem role_ranking_amended_witness :
    ({ role := "X", total := 1, accepted := 0,
       rate := ((0 : Nat) : Rat) / ((1 : Nat) : Rat) * 100 } : RoleStat).total =
      ([mkApp 1 "c" "X" "Applied"].filter (fun a => a.role =
        ({ role := "X", total := 1, accepted := 0,
           rate := ((0 : Nat) : Rat) / ((1 : Nat) : Rat) * 100 } :
          RoleStat).role)).length :=
  (((role_ranking_amended [mkApp 1 "c" "X" "Applied"]
      (role_grp [mkApp 1 "c" "X" "Applied"])
      (List.Perm.refl _)
      (List.Pairwise.cons (fun y hy => absurd hy (List.not_mem_nil y))
        List.Pairwise.nil)).2.2.1)
    _ (List.Mem.head _)).1

/-! ## Claim C3: the top-companies block -/

theorem length_filter_of_map {α β : Type} (f : α → β) (p : β → Bool)
    (l : List α) :
    ((l.map f).filter p).length = (l.filter (fun a => p (f a))).length := by
  induction l with
  | nil => rfl
  | cons a l ih =>
    simp only [List.map_cons, List.filter_cons]
    by_cases h : p (f a) = true
    · rw [if_pos h, if_pos h]
      simp [ih]
    · rw [if_neg h, if_neg h]
      exact ih

theorem value_counts_pairs_fst (xs : List String) :
    (value_counts_pairs xs).map Prod.fst = firstOccurrences xs := by
  rw [value_counts_pairs, List.map_map]
  exact List.map_id _

/-- C3 counterexample: with companies A, A, B, C the descending ranking
is A, B, C; the displayed list is the ascending re-sort B, C, A, which
is not the reverse C, B, A of the ranking: the tied companies B and C
are not swapped by the re-sort. On these three-element arrays numpy
sorts with insertion sort, so the insertionSort instances are exactly
the program's behavior. -/
theorem top_co_not_reverse_example :
    value_counts_desc
      ([mkApp 1 "A" "X" "Applied", mkApp 2 "A" "X" "Applied",
        mkApp 3 "B" "X" "Applied", mkApp 4 "C" "X" "Applied"].map
        (fun a => a.company_name)) = [("A", 2), ("B", 1), ("C", 1)] ∧
    top_co [mkApp 1 "A" "X" "Applied", mkApp 2 "A" "X" "Applied",
        mkApp 3 "B" "X" "Applied", mkApp 4 "C" "X" "Applied"] =
      [("B", 1), ("C", 1), ("A", 2)] ∧
    top_co [mkApp 1 "A" "X" "Applied", mkApp 2 "A" "X" "Applied",
        mkApp 3 "B" "X" "Applied", mkApp 4 "C" "X" "Applied"] ≠
      ((value_counts_desc
        ([mkApp 1 "A" "X" "Applied", mkApp 2 "A" "X" "Applied",
          mkApp 3 "B" "X" "Applied", mkApp 4 "C" "X" "Applied"].map
          (fun a => a.company_name))).take 10).reverse := by
  decide

/-- C3 amended: the top-companies pipeline groups by exact company name,
sorts the counted pairs descending by count, takes the first 10, and
displays them re-sorted ascending by count. Each sort guarantees only a
count-sorted permutation (pandas' default quicksort is not stable), so
equal counts make both the boundary of the top 10 and the order among
ties unspecified; in particular the display order is not in general the
exact reverse of the ranking. For every admissible ranking and display
output: the display has length at most 10, lists distinct companies of
the collection, each with its exact application count, in ascending
count order. -/
theorem top_co_amended (apps : List Application)
    (rank disp : List (String × Nat))
    (hrankperm : List.Perm rank
      (value_counts_pairs (apps.map (fun a => a.company_name))))
    (_hranksort : rank.Pairwise (fun p q => q.2 ≤ p.2))
    (hdispperm : List.Perm disp (rank.take 10))
    (hdispsort : disp.Pairwise (fun p q => p.2 ≤ q.2)) :
    disp.length ≤ 10 ∧
    (disp.map Prod.fst).Nodup ∧
    (∀ p ∈ disp,
      p.1 ∈ apps.map (fun a => a.company_name) ∧
      p.2 = (apps.filter (fun a => a.company_name = p.1)).length) ∧
    disp.Pairwise (fun p q => p.2 ≤ q.2) := by
  have hnd : (disp.map Prod.fst).Nodup := by
    have h1 : ((value_counts_pairs
        (apps.map (fun a => a.company_name))).map Prod.fst).Nodup := by
      rw [value_counts_pairs_fst]
      exact nodup_firstOccurrences _
    have h2 : (rank.map Prod.fst).Nodup :=
      ((hrankperm.map _).nodup_iff).mpr h1
    have h3 : ((rank.take 10).map Prod.fst).Nodup :=
      h2.sublist ((List.take_sublist _ _).map _)
    exact ((hdispperm.map _).nodup_iff).mpr h3
  refine ⟨?_, hnd, ?_, hdispsort⟩
  · rw [hdispperm.length_eq]
    exact List.length_take_le _ _
  · intro p hp
    have hp2 : p ∈ rank.take 10 := hdispperm.mem_iff.mp hp
    have hp3 : p ∈ rank := (List.take_sublist _ _).subset hp2
    have hp4 : p ∈ value_counts_pairs
        (apps.map (fun a => a.company_name)) := hrankperm.mem_iff.mp hp3
    rw [value_counts_pairs] at hp4
    obtain ⟨v, hv, rfl⟩ := List.mem_map.mp hp4
    constructor
    · exact (mem_firstOccurrences _ v).mp hv
    · exact length_filter_of_map (fun a => a.company_name) _ apps

/-- Witness for top_co_amended at a concrete collection, instantiating
the ranking with value_counts_desc and the display with top_co: the
displayed entry (B, 1) is a company of the collection with its count. -/
theorem top_co_amended_witness :
    (("B", 1) : String × Nat).1 ∈
      [mkApp 1 "A" "X" "Applied", mkApp 2 "A" "X" "Applied",
       mkApp 3 "B" "X" "Applied", mkApp 4 "C" "X" "Applied"].map
        (fun a => a.company_name) ∧
    (("B", 1) : String × Nat).2 =
      ([mkApp 1 "A" "X" "Applied", mkApp 2 "A" "X" "Applied",
        mkApp 3 "B" "X" "Applied", mkApp 4 "C" "X" "Applied"].filter
        (fun a => a.company_name = (("B", 1) : String × Nat).1)).length :=
  (top_co_amended [mkApp 1 "A" "X" "Applied", mkApp 2 "A" "X" "Applied",
    mkApp 3 "B" "X" "Applied", mkApp 4 "C" "X" "Applied"]
    (value_counts_desc
      ([mkApp 1 "A" "X" "Applied", mkApp 2 "A" "X" "Applied",
        mkApp 3 "B" "X" "Applied", mkApp 4 "C" "X" "Applied"].map
        (fun a => a.company_name)))
    (top_co [mkApp 1 "A" "X" "Applied", mkApp 2 "A" "X" "Applied",
      mkApp 3 "B" "X" "Applied", mkApp 4 "C" "X" "Applied"])
    (by exact List.perm_insertionSort _ _)
    (by decide)
    (by exact List.perm_insertionSort _ _)
    (by decide)).2.2.1
    ("B", 1) (by decide)

/-! ## Claim C9: resume storage keys -/

theorem digitChar_inj (a b : Nat) (h : digitChar a = digitChar b) :
    a % 10 = b % 10 := by
  have h10a : a % 10 < 10 := Nat.mod_lt _ (by omega)
  have h10b : b % 10 < 10 := Nat.mod_lt _ (by omega)
  have key : ∀ x y : Fin 10,
      Char.ofNat (48 + x.1) = Char.ofNat (48 + y.1) → x = y := by decide
  have h2 := key ⟨a % 10, h10a⟩ ⟨b % 10, h10b⟩ h
  exact congrArg Fin.val h2

theorem strftime_data (t : DateTime) :
    (strftime_timestamp t).data =
      [digitChar (t.year / 1000), digitChar (t.year / 100),
       digitChar (t.year / 10), digitChar t.year,
       digitChar (t.month / 10), digitChar t.month,
       digitChar (t.day / 10), digitChar t.day, '_',
       digitChar (t.hour / 10), digitChar t.hour,
       digitChar (t.minute / 10), digitChar t.minute,
       digitChar (t.second / 10), digitChar t.second] := rfl

theorem strftime_length (t : DateTime) :
    (strftime_timestamp t).data.length = 15 := by
  rw [strftime_data]
  rfl

theorem strftime_inj (t1 t2 : DateTime) (hv1 : t1.valid) (hv2 : t2.valid)
    (he : (strftime_timestamp t1).data = (strftime_timestamp t2).data) :
    t1 = t2 := by
  rw [strftime_data, strftime_data] at he
  simp only [List.cons.injEq, and_true] at he
  obtain ⟨e1, e2, e3, e4, e5, e6, e7, e8, _, e10, e11, e12, e13, e14, e15⟩ :=
    he
  have f1 := digitChar_inj _ _ e1
  have f2 := digitChar_inj _ _ e2
  have f3 := digitChar_inj _ _ e3
  have f4 := digitChar_inj _ _ e4
  have f5 := digitChar_inj _ _ e5
  have f6 := digitChar_inj _ _ e6
  have f7 := digitChar_inj _ _ e7
  have f8 := digitChar_inj _ _ e8
  have f10 := digitChar_inj _ _ e10
  have f11 := digitChar_inj _ _ e11
  have f12 := digitChar_inj _ _ e12
  have f13 := digitChar_inj _ _ e13
  have f14 := digitChar_inj _ _ e14
  have f15 := digitChar_inj _ _ e15
  obtain ⟨hy1, hm1a, hm1b, hd1a, hd1b, hh1, hmi1, hs1⟩ := hv1
  obtain ⟨hy2, hm2a, hm2b, hd2a, hd2b, hh2, hmi2, hs2⟩ := hv2
  cases t1
  cases t2
  simp only [DateTime.mk.injEq]
  dsimp only at f1 f2 f3 f4 f5 f6 f7 f8 f10 f11 f12 f13 f14 f15 hy1 hm1a hm1b hd1a hd1b hh1 hmi1 hs1 hy2 hm2a hm2b hd2a hd2b hh2 hmi2 hs2
  refine ⟨?_, ?_, ?_, ?_, ?_, ?_⟩ <;> omega

/-- C9: the storage key is a deterministic function of the company name,
the current timestamp and the file name; two uploads for the same
company with timestamps differing at second resolution always get
distinct keys, and the returned reference is the public URL of the
key. -/
theorem upload_key_unique_spec (company f1 f2 : String) (t1 t2 : DateTime)
    (hv1 : t1.valid) (hv2 : t2.valid) (hne : t1 ≠ t2) :
    (upload_resume_to_storage f1 company t1).2 ≠
      (upload_resume_to_storage f2 company t2).2 ∧
    (upload_resume_to_storage f1 company t1).1 =
      resumesUrlBase ++ (upload_resume_to_storage f1 company t1).2 := by
  refine ⟨?_, rfl⟩
  intro he
  apply hne
  apply strftime_inj t1 t2 hv1 hv2
  have hd : ((spaceToUnderscore company) ++ "_" ++ strftime_timestamp t1 ++
      "_" ++ f1).data =
      ((spaceToUnderscore company) ++ "_" ++ strftime_timestamp t2 ++
      "_" ++ f2).data := congrArg String.data he
  have hu : ("_" : String).data = ['_'] := rfl
  simp only [String.data_append, List.append_assoc, hu,
    List.singleton_append] at hd
  have h2 := List.append_cancel_left hd
  injection h2 with _ h3
  exact (List.append_inj h3
    (by rw [strftime_length, strftime_length])).1

/-- Witness for upload_key_unique_spec: two uploads one second apart for
the same company and file name get distinct keys. -/
theorem upload_key_unique_spec_witness :
    (upload_resume_to_storage "cv.pdf" "Acme Co" ⟨2024, 1, 5, 10, 0, 0⟩).2 ≠
      (upload_resume_to_storage "cv.pdf" "Acme Co" ⟨2024, 1, 5, 10, 0, 1⟩).2 ∧
    (upload_resume_to_storage "cv.pdf" "Acme Co" ⟨2024, 1, 5, 10, 0, 0⟩).1 =
      resumesUrlBase ++
        (upload_resume_to_storage "cv.pdf" "Acme Co" ⟨2024, 1, 5, 10, 0, 0⟩).2 :=
  upload_key_unique_spec "Acme Co" "cv.pdf" "cv.pdf" ⟨2024, 1, 5, 10, 0, 0⟩
    ⟨2024, 1, 5, 10, 0, 1⟩ (by decide) (by decide) (by decide)
